import Mathlib

set_option autoImplicit false

/-!
Verification development for the obsidian-powerbase core services:
the debounced write queue (EditEngineService), the bidirectional
back-link sync (BidirectionalSyncService), the rollup aggregation
engine (RollupService) and the relation-column classifier
(RelationalTableView.detectRelationColumn).

Frontmatter values are modelled as an explicit tagged union `FmValue`
(JS null/undefined collapse to `.null`, which is how every embedded
function treats them).  JS numbers are modelled as rationals.
-/

namespace Powerbase

/-- Tagged union of frontmatter property values: Null, Scalar (string,
number, boolean) or List. JS `null` and `undefined` are both `.null`. -/
inductive FmValue where
  | null
  | str (s : String)
  | num (q : ℚ)
  | bool (b : Bool)
  | list (items : List FmValue)

/-- Result of a rollup aggregation (the TS function returns `any`). -/
inductive RItem where
  | link (path display : String)
  | strv (s : String)
deriving DecidableEq, Repr

/-- JS number-to-string, modelled exactly on integral values (the only
case the theorems below exercise); non-integral rationals print in
fraction form, where JS would print a float decimal. -/
def jsNumToString (q : ℚ) : String :=
  if q.den = 1 then toString q.num else toString q

mutual

/-- JS `String(v)` on an `FmValue` (`String(null) = "null"`,
arrays join with "," and null elements join as empty strings). -/
def jsToString : FmValue → String
  | .null => "null"
  | .str s => s
  | .num q => jsNumToString q
  | .bool b => if b then "true" else "false"
  | .list items => jsJoinList items

/-- JS `Array.prototype.join(",")` over modelled values. -/
def jsJoinList : List FmValue → String
  | [] => ""
  | [v] => jsElemToString v
  | v :: rest => jsElemToString v ++ "," ++ jsJoinList rest

/-- Stringification of one array element in a JS join: null and
undefined elements become the empty string. -/
def jsElemToString : FmValue → String
  | .null => ""
  | .str s => s
  | .num q => jsNumToString q
  | .bool b => if b then "true" else "false"
  | .list items => jsJoinList items

end

/-! Character-list implementations of the JS string primitives used by
the sources.  (They avoid the byte-position-based core `String`
functions so that every embedded function evaluates on concrete
inputs; JS Unicode case folding and trimming are modelled at ASCII
granularity.) -/

/-- JS `s.startsWith(pre)`. -/
def strStartsWith (s pre : String) : Bool := pre.toList.isPrefixOf s.toList

/-- JS `s.endsWith(suf)`. -/
def strEndsWith (s suf : String) : Bool := suf.toList.isSuffixOf s.toList

/-- JS `s.toLowerCase()`. -/
def strToLower (s : String) : String := (s.toList.map Char.toLower).asString

/-- Drop the first `n` characters of a string. -/
def strDrop (s : String) (n : ℕ) : String := (s.toList.drop n).asString

/-- Drop the last `n` characters of a string. -/
def strDropRight (s : String) (n : ℕ) : String :=
  (s.toList.take (s.toList.length - n)).asString

/-- JS `s.trim()`. -/
def strTrim (s : String) : String :=
  (((s.toList.dropWhile Char.isWhitespace).reverse.dropWhile Char.isWhitespace).reverse).asString

/-- Character count of a string. -/
def strLength (s : String) : ℕ := s.toList.length

/-- A frontmatter map: property name to value (absent = `.null`). -/
abbrev Fm := String → FmValue

/-- Point update of a frontmatter map (JS `fm[prop] = v`). -/
def updateFm (fm : Fm) (k : String) (v : FmValue) : Fm :=
  fun p => if p = k then v else fm p

/-! ### Wiki-link parsing

`ParseService` is not part of the repository sources (only its callers
are), so the parser is modelled from the spec: a Reference is the
bracketed form `[[target]]` or `[[target|label]]`; its identity is the
target text, and reference equivalence normalizes the identity
case-insensitively with the file extension stripped.  The stripped
`.md` matches the repository-wide `path.replace(/\.md$/, "")`
convention. -/

structure WikiLink where
  path : String
  display : String
deriving DecidableEq, Repr

/-- Strip one trailing `.md` extension (JS `p.replace(/\.md$/, "")`). -/
def stripMdExt (p : String) : String :=
  if strEndsWith p ".md" then strDropRight p 3 else p

/-- Split bracket-free link text at the first `|` into target text and
optional display label. -/
def splitTarget (inner : String) : String × Option String :=
  match inner.toList.findIdx? (· = '|') with
  | some i => ((inner.toList.take i).asString, some ((inner.toList.drop (i + 1)).asString))
  | none => (inner, none)

/-- Last path segment of a link target (used as the default display
label). -/
def wikiBasename (p : String) : String :=
  ((p.toList.reverse.takeWhile (· ≠ '/')).reverse).asString

/-- Modelled from the spec: the raw target text (the reference's
resolved identity, extension not yet stripped) of a bracketed link,
together with its optional display label; `none` when the string is
not a well-formed `[[...]]` reference. -/
def wikiLinkTarget (s : String) : Option (String × Option String) :=
  if strStartsWith s "[[" && strEndsWith s "]]" then
    let inner := strDropRight (strDrop s 2) 2
    if inner.toList.contains ']' then none
    else
      match splitTarget inner with
      | (t, al) =>
        if t = "" then none
        else
          match al with
          | some a => if a = "" then none else some (t, some a)
          | none => some (t, none)
  else none

/-- Modelled from the spec: `ParseService.parseWikiLink` is absent from
the sources; it parses `[[target]]` / `[[target|label]]`, the stored
path being the target with a trailing `.md` stripped (the spec defines
reference equivalence as case-insensitive and extension-stripped). -/
def parseWikiLink (s : String) : Option WikiLink :=
  (wikiLinkTarget s).map fun ta =>
    ⟨stripMdExt ta.1, ta.2.getD (wikiBasename ta.1)⟩

/-- Modelled from the spec: `ParseService.formatAsWikiLink` renders a
path in bracketed link syntax. -/
def formatAsWikiLink (p : String) : String := "[[" ++ p ++ "]]"

/-- Modelled from the spec: `WIKILINK_REGEX.test`, true exactly on
well-formed bracketed references. -/
def wikiLinkTest (s : String) : Bool := (parseWikiLink s).isSome

/-- Spec-side normalization of a reference identity: strip the file
extension and compare case-insensitively. -/
def specNormalizeId (t : String) : String := strToLower (stripMdExt t)

/-! ### BidirectionalSyncService -/

/-- The `normalize` closure of `BidirectionalSyncService.diffLinks`:
parsed path lowercased, falling back to the raw text lowercased. -/
def normalizeLink (link : String) : String :=
  match parseWikiLink link with
  | some p => strToLower p.path
  | none => strToLower link

/-- `BidirectionalSyncService.diffLinks`: `added` are the new links
whose normalized path is not among the old ones, `removed` the old
links whose normalized path is not among the new ones. -/
def diffLinks (oldLinks newLinks : List String) : List String × List String :=
  let oldPaths := oldLinks.map normalizeLink
  let newPaths := newLinks.map normalizeLink
  (newLinks.filter fun link => !(oldPaths.contains (normalizeLink link)),
   oldLinks.filter fun link => !(newPaths.contains (normalizeLink link)))

/-- The `backPath` computed at the top of `addBackLink` /
`removeBackLink`: lowercased parsed path of the back-link, or `""` when
it does not parse. -/
def backPathOf (backLink : String) : String :=
  ((parseWikiLink backLink).map (fun p => strToLower p.path)).getD ""

/-- The `alreadyPresent` item check of `addBackLink`: the item is a
string that parses as a wiki-link whose lowercased path equals
`backPath` (JS `parsed?.path.toLowerCase() === backPath`; a failed
parse compares `undefined` to a string, hence false). -/
def backLinkMatches (backPath : String) (item : FmValue) : Bool :=
  match item with
  | .str s =>
      match parseWikiLink s with
      | some p => strToLower p.path == backPath
      | none => false
  | _ => false

/-- `BidirectionalSyncService.addBackLink` acting on the target's
frontmatter: append to a list unless an equivalent entry is present,
create a single-element list when the property is absent, and leave a
non-list value untouched. -/
def addBackLink (fm : Fm) (propertyName backLink : String) : Fm :=
  let backPath := backPathOf backLink
  match fm propertyName with
  | .list existing =>
      if existing.any (backLinkMatches backPath) then fm
      else updateFm fm propertyName (.list (existing ++ [.str backLink]))
  | .null => updateFm fm propertyName (.list [.str backLink])
  | _ => fm

/-- The keep-predicate of `removeBackLink`'s filter (JS
`parsed?.path.toLowerCase() !== backPath`; non-strings and failed
parses are kept). -/
def removeKeeps (backPath : String) (item : FmValue) : Bool :=
  match item with
  | .str s =>
      match parseWikiLink s with
      | some p => strToLower p.path != backPath
      | none => true
  | _ => true

/-- `BidirectionalSyncService.removeBackLink` acting on the target's
frontmatter: filter equivalent entries out of a list, skipping the
write when the length is unchanged; a non-list value is untouched. -/
def removeBackLink (fm : Fm) (propertyName backLink : String) : Fm :=
  let backPath := backPathOf backLink
  match fm propertyName with
  | .list existing =>
      let filtered := existing.filter (removeKeeps backPath)
      if filtered.length ≠ existing.length then
        updateFm fm propertyName (.list filtered)
      else fm
  | _ => fm

/-- Number of entries of the back-link property's list equivalent to
the given back-link (0 when the property is not a list). -/
def countBackLinkEntries (fm : Fm) (propertyName backLink : String) : Nat :=
  match fm propertyName with
  | .list items => (items.filter (backLinkMatches (backPathOf backLink))).length
  | _ => 0

/-- Scalar (non-list, non-null) frontmatter values. -/
def isScalar : FmValue → Bool
  | .str _ => true
  | .num _ => true
  | .bool _ => true
  | _ => false

/-! ### EditEngineService (the write queue) -/

/-- A queued frontmatter edit (`EditArgs`): the TS record carries the
target `TFile`, identified here by its path. -/
structure EditArgs where
  filePath : String
  propertyName : String
  value : FmValue

/-- The dedupe key of a queued edit: `(file.path, propertyName)`. -/
def keyOf (e : EditArgs) : String × String := (e.filePath, e.propertyName)

/-- The dedupe comparison of `updateRowFile`:
`e.file.path === args.file.path && e.propertyName === args.propertyName`. -/
def sameKeyB (e args : EditArgs) : Bool :=
  e.filePath == args.filePath && e.propertyName == args.propertyName

/-- `EditEngineService.updateRowFile` acting on the pending queue:
replace the first entry with the same (file, property) key, otherwise
append. -/
def updateRowFile : List EditArgs → EditArgs → List EditArgs
  | [], args => [args]
  | e :: rest, args =>
      if sameKeyB e args then args :: rest else e :: updateRowFile rest args

/-- The queue invariant: no two pending entries share a key. -/
def keysNodup (queue : List EditArgs) : Prop := (queue.map keyOf).Nodup

/-- Storage state: path to frontmatter map. -/
abbrev Store := String → Fm

/-- `EditEngineService.persistFrontmatter`: atomic write of one
property of one file (`fm[edit.propertyName] = edit.value`). -/
def persistFrontmatter (store : Store) (edit : EditArgs) : Store :=
  fun path =>
    if path = edit.filePath then updateFm (store path) edit.propertyName edit.value
    else store path

/-- The batch loop of `EditEngineService.processBatch`: each entry's
write is attempted inside its own try/catch (`throws` tells which
writes fail); a failed write leaves the store unchanged and processing
continues.  Returns the final store and the list of attempted entries
in order. -/
def processBatch (throws : EditArgs → Bool) : Store → List EditArgs → Store × List EditArgs
  | store, [] => (store, [])
  | store, edit :: rest =>
      let store' := if throws edit then store else persistFrontmatter store edit
      let next := processBatch throws store' rest
      (next.1, edit :: next.2)

/-! ### RollupService -/

/-- Aggregation kinds of `RollupService.aggregate`. -/
inductive AggregationType where
  | count
  | count_values
  | sum
  | average
  | min
  | max
  | list
  | unique
  | percent_true
  | percent_not_empty

/-- Rollup result values (the TS function returns `any`). -/
inductive RollupResult where
  | null
  | num (q : ℚ)
  | str (s : String)
  | items (xs : List RItem)
deriving DecidableEq, Repr

/-- JS whitespace skipped by `parseFloat`. -/
def isWsChar (c : Char) : Bool :=
  c = ' ' || c = '\t' || c = '\n' || c = '\r'

/-- Leading-whitespace skip of JS `parseFloat`. -/
def skipWs : List Char → List Char
  | [] => []
  | c :: cs => if isWsChar c then skipWs cs else c :: cs

/-- Optional leading sign of a JS numeric literal (`true` = negative). -/
def splitSign (cs : List Char) : Bool × List Char :=
  match cs with
  | c :: rest =>
      if c = '+' then (false, rest)
      else if c = '-' then (true, rest)
      else (false, cs)
  | [] => (false, [])

/-- Apply a parsed sign to a magnitude. -/
def applySign (neg : Bool) (q : ℚ) : ℚ := if neg then -q else q

/-- Value of a digit string. -/
def digitsVal (cs : List Char) : ℕ :=
  cs.foldl (fun n c => n * 10 + (c.toNat - 48)) 0

/-- Longest decimal-numeral prefix (`digits`, `digits.digits`,
`.digits` or `digits.`) with the unconsumed remainder; `none` when no
digit is found. -/
def parseDecimal (cs : List Char) : Option (ℚ × List Char) :=
  let ip := cs.takeWhile Char.isDigit
  let r1 := cs.dropWhile Char.isDigit
  match r1 with
  | c :: r2 =>
      if c = '.' then
        let fp := r2.takeWhile Char.isDigit
        let r3 := r2.dropWhile Char.isDigit
        if ip.isEmpty && fp.isEmpty then none
        else some ((digitsVal ip : ℚ) + (digitsVal fp : ℚ) / (10 : ℚ) ^ fp.length, r3)
      else if ip.isEmpty then none
      else some ((digitsVal ip : ℚ), c :: r2)
  | [] => if ip.isEmpty then none else some ((digitsVal ip : ℚ), [])

/-- Exponent suffix of a JS float literal (`e`/`E`, optional sign,
digits); an incomplete suffix is ignored, as `parseFloat` ignores it. -/
def applyExp (q : ℚ) : List Char → ℚ
  | c :: cs =>
      if c = 'e' || c = 'E' then
        let se : ℤ × List Char :=
          match cs with
          | d :: r => if d = '+' then (1, r) else if d = '-' then (-1, r) else (1, cs)
          | [] => (1, [])
        let ed := se.2.takeWhile Char.isDigit
        if ed.isEmpty then q else q * (10 : ℚ) ^ (se.1 * (digitsVal ed : ℤ))
      else q
  | [] => q

/-- JS `parseFloat` over idealized (rational) numbers: skip leading
whitespace, parse the longest signed decimal prefix with optional
exponent; `none` models `NaN`.  (The `Infinity` literal is not
modelled; no theorem below depends on it.) -/
def jsParseFloat (s : String) : Option ℚ :=
  match parseDecimal (splitSign (skipWs s.toList)).2 with
  | some (q, rest) => some (applySign (splitSign (skipWs s.toList)).1 (applyExp q rest))
  | none => none

/-- The per-value coercion inside `RollupService.toNumbers`:
`typeof v === "number" ? v : parseFloat(String(v))`, with `none` for
`NaN`. -/
def coerceNum (v : FmValue) : Option ℚ :=
  match v with
  | .num q => some q
  | _ => jsParseFloat (jsToString v)

/-- `RollupService.toNumbers`: coerce mixed values to numbers,
discarding `NaN` results. -/
def toNumbers (values : List FmValue) : List ℚ :=
  values.filterMap coerceNum

/-- `RollupService.filterNonNull`: drop null and undefined values. -/
def filterNonNull (values : List FmValue) : List FmValue :=
  values.filter fun v => match v with | .null => false | _ => true

/-- `RollupService.flattenAndResolveLinks`: flatten one level, drop
nulls, and render each item as a `{path, display}` link object when it
parses as a wiki-link, else as its string form. -/
def flattenAndResolveLinks (values : List FmValue) : List RItem :=
  (filterNonNull values).flatMap fun v =>
    let items := match v with | .list xs => xs | _ => [v]
    items.filterMap fun item =>
      match item with
      | .null => none
      | it =>
          let str := jsToString it
          match parseWikiLink str with
          | some p => some (.link p.path p.display)
          | none => some (.strv str)

/-- The dedup filter of the `unique` aggregation: first occurrence per
key (`path` for link items, the string itself otherwise) is kept. -/
def uniqueItems : List RItem → List String → List RItem
  | [], _ => []
  | it :: rest, seen =>
      let key := match it with | .strv s => s | .link p _ => p
      if seen.contains key then uniqueItems rest seen
      else it :: uniqueItems rest (key :: seen)

/-- JS `Math.round`: round half toward positive infinity. -/
def jsRound (q : ℚ) : ℤ := Int.floor (q + 1/2)

/-- `RollupService.aggregate`: apply one aggregation to the raw values
read from the linked notes; `totalLinks` is the number of linked notes
(defaulting to the value count when not passed). -/
def aggregate (values : List FmValue) (aggregation : AggregationType)
    (totalLinks : Option ℕ) : RollupResult :=
  let total := totalLinks.getD values.length
  match aggregation with
  | .count => .num (total : ℚ)
  | .count_values => .num ((filterNonNull values).length : ℚ)
  | .sum => .num ((toNumbers values).foldl (· + ·) 0)
  | .average =>
      let nums := toNumbers values
      if nums.length = 0 then .num 0
      else .num ((nums.foldl (· + ·) 0) / (nums.length : ℚ))
  | .min =>
      match toNumbers values with
      | [] => .null
      | n :: rest => .num (rest.foldl Min.min n)
  | .max =>
      match toNumbers values with
      | [] => .null
      | n :: rest => .num (rest.foldl Max.max n)
  | .list => .items (flattenAndResolveLinks values)
  | .unique => .items (uniqueItems (flattenAndResolveLinks values) [])
  | .percent_true =>
      let bools := values.filter fun v => match v with | .bool _ => true | _ => false
      if bools.length = 0 then
        if total = 0 then .str "(0/0) 0%"
        else .str ("(0/" ++ toString total ++ ") 0%")
      else
        let trueCount := (bools.filter fun v =>
          match v with | .bool true => true | _ => false).length
        let pct := jsRound ((trueCount : ℚ) / (total : ℚ) * 100)
        .str ("(" ++ toString trueCount ++ "/" ++ toString total ++ ") "
          ++ toString pct ++ "%")
  | .percent_not_empty =>
      let nonEmpty := (values.filter fun v =>
        match v with | .null => false | .str "" => false | _ => true).length
      if total = 0 then .str "(0/0) 0%"
      else
        let pct := jsRound ((nonEmpty : ℚ) / (total : ℚ) * 100)
        .str ("(" ++ toString nonEmpty ++ "/" ++ toString total ++ ") "
          ++ toString pct ++ "%")

/-- Claim-side (spec) description of the `percent_true` format:
`"(t/total) p%"` with `t` the count of boolean-true values, `total`
the resolved-document total and `p` the rounded percentage;
`"(0/0) 0%"` when the total is 0. -/
def percentTrueSpec (values : List FmValue) (total : ℕ) : String :=
  if total = 0 then "(0/0) 0%"
  else
    let t := (values.filter fun v =>
      match v with | .bool true => true | _ => false).length
    "(" ++ toString t ++ "/" ++ toString total ++ ") "
      ++ toString (jsRound ((t : ℚ) / (total : ℚ) * 100)) ++ "%"

/-- Claim-side (spec) numeric-string reading: the whole string is a
signed decimal numeral, with its rational value. -/
def numericLit (s : String) : Option ℚ :=
  match parseDecimal (splitSign s.toList).2 with
  | some (q, []) => some (applySign (splitSign s.toList).1 q)
  | _ => none

/-! ### NoteSearchService and the relation classifier -/

/-- A markdown file of the vault: path, basename and frontmatter
aliases (as read from the metadata cache). -/
structure VFile where
  path : String
  basename : String
  aliases : List String
deriving DecidableEq, Repr

/-- A vault: its markdown files plus which paths are folders
(`getAbstractFileByPath` returning a node with `children`). -/
structure Vault where
  files : List VFile
  folders : List String

/-- Folder scoping used across `NoteSearchService`: restrict to files
under `folderPath + "/"`; a missing (or empty, JS-falsy) folder leaves
the list unfiltered. -/
def scopeFiles (files : List VFile) (folderPath : Option String) : List VFile :=
  match folderPath with
  | some f =>
      if f = "" then files
      else
        let pre := if strEndsWith f "/" then f else f ++ "/"
        files.filter fun x => strStartsWith x.path pre
  | none => files

/-- `NoteSearchService.resolveTextReference`: lowercase and trim the
text, then match by exact basename (case-insensitive) and finally by
frontmatter alias, within the optional folder scope. -/
def resolveTextReference (vault : Vault) (text : String)
    (folderPath : Option String) : Option VFile :=
  if text = "" then none
  else
    let lowerText := strTrim (strToLower text)
    if lowerText = "" then none
    else
      let allFiles := scopeFiles vault.files folderPath
      match allFiles.find? fun f => strToLower f.basename = lowerText with
      | some f => some f
      | none =>
          allFiles.find? fun f => f.aliases.any fun a => strToLower a = lowerText

/-- `NoteSearchService.isTextReference`: the text resolves to some
vault file. -/
def isTextReference (vault : Vault) (text : String)
    (folderPath : Option String) : Bool :=
  (resolveTextReference vault text folderPath).isSome

/-- A table row as the classifier sees it: property id to unwrapped
value. -/
abbrev Row := String → FmValue

/-- `RelationalTableView.extractPropertyName`: the part after the
first dot of a property id. -/
def extractPropertyName (propertyId : String) : String :=
  match propertyId.toList.findIdx? (· = '.') with
  | some i => (propertyId.toList.drop (i + 1)).asString
  | none => propertyId

/-- `RelationalTableView.matchRelationSubfolder`: the property name
(lowercased, with/without a trailing "s") matched against subfolders
of the base folder; returns the first existing candidate. -/
def matchRelationSubfolder (vault : Vault) (propId : String)
    (baseFolder : Option String) : Option String :=
  match baseFolder with
  | none => none
  | some base =>
      if base = "" then none
      else
        let propName := strToLower (extractPropertyName propId)
        let candidates :=
          [base ++ "/" ++ propName, base ++ "/" ++ propName ++ "s"]
            ++ (if strEndsWith propName "s" && strLength propName > 1 then
                  [base ++ "/" ++ strDropRight propName 1]
                else [])
        candidates.find? fun c => vault.folders.contains c

/-- Pattern 1 of `detectRelationColumn` for one sampled row: the value
is a non-empty all-string array whose items are all wiki-links (1a) or
all resolve as text references (1b). -/
def pattern1Row (vault : Vault) (baseFolder : Option String) (propId : String)
    (row : Row) : Bool :=
  match row propId with
  | .list items =>
      if items.length = 0 then false
      else if !(items.all fun item =>
          match item with | .str _ => true | _ => false) then false
      else
        (items.all fun item =>
          match item with | .str s => wikiLinkTest s | _ => false)
        || (items.all fun item =>
          match item with | .str s => isTextReference vault s baseFolder | _ => false)
  | _ => false

/-- Pattern 2 counting of `detectRelationColumn`:
`(textRefSamples, textRefHits)` over the sampled rows — non-empty
scalar strings that are not wiki-links, and how many of them resolve. -/
def textRefStats (vault : Vault) (baseFolder : Option String) (propId : String)
    (sampled : List Row) : ℕ × ℕ :=
  sampled.foldl
    (fun acc row =>
      match row propId with
      | .str s =>
          if s = "" then acc
          else if wikiLinkTest s then acc
          else (acc.1 + 1, acc.2 + (if isTextReference vault s baseFolder then 1 else 0))
      | _ => acc)
    (0, 0)

/-- `RelationalTableView.detectRelationColumn`: only `note.*`
properties qualify; then pattern 1 (arrays of wiki-links or resolving
paths) on the first 10 rows, pattern 2 (scalar text references, at
least 2 samples and strictly more than 50% resolving), and pattern 3
(property name matching a subfolder). -/
def detectRelationColumn (vault : Vault) (propId : String) (rows : List Row)
    (baseFolder : Option String) : Bool :=
  if !(strStartsWith propId "note.") then false
  else
    let sampled := rows.take 10
    if sampled.any (pattern1Row vault baseFolder propId) then true
    else
      let stats := textRefStats vault baseFolder propId sampled
      if 2 ≤ stats.1 ∧ (stats.2 : ℚ) / (stats.1 : ℚ) > 1/2 then true
      else if (matchRelationSubfolder vault propId baseFolder).isSome then true
      else false

/-! ## Theorems -/

/-- The dedupe key comparison agrees with key equality. -/
theorem sameKeyB_iff (e a : EditArgs) : sameKeyB e a = true ↔ keyOf e = keyOf a := by
  simp [sameKeyB, keyOf, Prod.ext_iff]

/-- Keys of the queue after an enqueue: the new key or an old one. -/
theorem updateRowFile_keys_sub (q : List EditArgs) (a : EditArgs) :
    ∀ x ∈ (updateRowFile q a).map keyOf, x = keyOf a ∨ x ∈ q.map keyOf := by
  induction q with
  | nil => simp [updateRowFile]
  | cons e rest ih =>
      intro x hx
      rw [updateRowFile] at hx
      by_cases hk : sameKeyB e a
      · rw [if_pos hk] at hx
        rcases List.mem_map.mp hx with ⟨y, hy, rfl⟩
        rcases List.mem_cons.mp hy with rfl | hy'
        · exact Or.inl rfl
        · exact Or.inr (by simpa using Or.inr (List.mem_map_of_mem keyOf hy'))
      · rw [if_neg hk] at hx
        rcases List.mem_map.mp hx with ⟨y, hy, rfl⟩
        rcases List.mem_cons.mp hy with rfl | hy'
        · exact Or.inr (by simp)
        · rcases ih (keyOf y) (List.mem_map_of_mem keyOf hy') with h | h
          · exact Or.inl h
          · exact Or.inr (by simpa using Or.inr h)

/-- Enqueueing preserves the no-duplicate-keys invariant. -/
theorem updateRowFile_keysNodup {q : List EditArgs} (h : keysNodup q) (a : EditArgs) :
    keysNodup (updateRowFile q a) := by
  induction q with
  | nil => simp [updateRowFile, keysNodup]
  | cons e rest ih =>
      rw [keysNodup, List.map_cons, List.nodup_cons] at h
      obtain ⟨h1, h2⟩ := h
      rw [updateRowFile]
      by_cases hk : sameKeyB e a
      · rw [if_pos hk, keysNodup, List.map_cons, List.nodup_cons]
        exact ⟨(sameKeyB_iff e a).mp hk ▸ h1, h2⟩
      · rw [if_neg hk, keysNodup, List.map_cons, List.nodup_cons]
        refine ⟨fun hmem => ?_, ih h2⟩
        rcases updateRowFile_keys_sub rest a (keyOf e) hmem with heq | hold
        · exact hk ((sameKeyB_iff e a).mpr heq)
        · exact h1 hold

/-- On a duplicate-free queue, an enqueue leaves exactly one entry for
the enqueued key, namely the enqueued edit itself. -/
theorem updateRowFile_filter_key {q : List EditArgs} (h : keysNodup q) (a : EditArgs) :
    (updateRowFile q a).filter (fun x => decide (keyOf x = keyOf a)) = [a] := by
  induction q with
  | nil => simp [updateRowFile]
  | cons e rest ih =>
      rw [keysNodup, List.map_cons, List.nodup_cons] at h
      obtain ⟨h1, h2⟩ := h
      rw [updateRowFile]
      by_cases hk : sameKeyB e a
      · rw [if_pos hk, List.filter_cons_of_pos (by simp)]
        have hrest : rest.filter (fun x => decide (keyOf x = keyOf a)) = [] := by
          rw [List.filter_eq_nil_iff]
          intro x hx
          simp only [decide_eq_true_eq]
          intro hcontra
          apply h1
          rw [(sameKeyB_iff e a).mp hk, ← hcontra]
          exact List.mem_map_of_mem keyOf hx
        rw [hrest]
      · have hne : ¬ (keyOf e = keyOf a) := fun hc => hk ((sameKeyB_iff e a).mpr hc)
        rw [if_neg hk, List.filter_cons_of_neg (by simpa using hne)]
        exact ih h2

/-- Folding any edit sequence into a duplicate-free queue keeps it
duplicate-free. -/
theorem foldl_updateRowFile_keysNodup (edits : List EditArgs) :
    ∀ q : List EditArgs, keysNodup q → keysNodup (edits.foldl updateRowFile q) := by
  induction edits with
  | nil => intro q hq; simpa using hq
  | cons e rest ih =>
      intro q hq
      rw [List.foldl_cons]
      exact ih _ (updateRowFile_keysNodup hq e)

/-- C1: starting from the empty queue, any sequence of `updateRowFile`
enqueues leaves at most one pending entry per (document, property)
key; and after enqueueing two edits for the same key, the queue (and
hence the batch snapshotted at flush) contains exactly one entry for
that key, carrying the value of the second edit. -/
theorem writeQueue_coalesces :
    (∀ edits : List EditArgs, keysNodup (edits.foldl updateRowFile [])) ∧
    (∀ (q : List EditArgs) (e1 e2 : EditArgs), keysNodup q → keyOf e1 = keyOf e2 →
      (updateRowFile (updateRowFile q e1) e2).filter
        (fun x => decide (keyOf x = keyOf e2)) = [e2]) := by
  constructor
  · intro edits
    exact foldl_updateRowFile_keysNodup edits [] (by simp [keysNodup])
  · intro q e1 e2 hq _
    exact updateRowFile_filter_key (updateRowFile_keysNodup hq e1) e2

/-- Witness for C1: two concrete edits of the same cell coalesce to the
second value. -/
theorem writeQueue_coalesces_witness :
    keysNodup ([] : List EditArgs) ∧
    (updateRowFile (updateRowFile [] ⟨"a.md", "p", .num 1⟩) ⟨"a.md", "p", .num 2⟩).filter
      (fun x => decide (keyOf x = keyOf ⟨"a.md", "p", .num 2⟩)) = [⟨"a.md", "p", .num 2⟩] :=
  ⟨by simp [keysNodup],
   writeQueue_coalesces.2 [] ⟨"a.md", "p", .num 1⟩ ⟨"a.md", "p", .num 2⟩
     (by simp [keysNodup]) rfl⟩

/-- C9: a batch flush attempts every entry of the batch exactly once
and in order, whatever writes fail — a failed write neither aborts the
remaining batch nor is retried; the store ends up as the fold of the
successful writes alone. -/
theorem processBatch_isolates_failures (throws : EditArgs → Bool) (store : Store)
    (batch : List EditArgs) :
    (processBatch throws store batch).2 = batch ∧
    (processBatch throws store batch).1 =
      batch.foldl (fun st e => if throws e then st else persistFrontmatter st e) store := by
  induction batch generalizing store with
  | nil => simp [processBatch]
  | cons e rest ih =>
      rw [processBatch]
      refine ⟨?_, ?_⟩
      · simpa using (ih _).1
      · simpa using (ih _).2

/-- C10: a property id that does not start with `note.` is never
classified as a relation, whatever the vault and rows contain. -/
theorem detectRelationColumn_requires_note (vault : Vault) (propId : String)
    (rows : List Row) (baseFolder : Option String)
    (h : strStartsWith propId "note." = false) :
    detectRelationColumn vault propId rows baseFolder = false := by
  simp [detectRelationColumn, h]

/-- Witness for C10: `file.name` is rejected without a vault or rows. -/
theorem detectRelationColumn_requires_note_witness :
    strStartsWith "file.name" "note." = false ∧
    detectRelationColumn ⟨[], []⟩ "file.name" [] none = false :=
  ⟨by decide, detectRelationColumn_requires_note ⟨[], []⟩ "file.name" [] none (by decide)⟩

/-- C3: when the back-link property currently holds a scalar (non-list,
non-null) value, neither `addBackLink` nor `removeBackLink` modifies
the target's frontmatter at all — the scalar is preserved and never
converted into a list. -/
theorem backLink_preserves_scalar (fm : Fm) (prop backLink : String)
    (h : isScalar (fm prop) = true) :
    addBackLink fm prop backLink = fm ∧ removeBackLink fm prop backLink = fm := by
  cases hv : fm prop with
  | null => rw [hv] at h; simp [isScalar] at h
  | str s => exact ⟨by simp [addBackLink, hv], by simp [removeBackLink, hv]⟩
  | num q => exact ⟨by simp [addBackLink, hv], by simp [removeBackLink, hv]⟩
  | bool b => exact ⟨by simp [addBackLink, hv], by simp [removeBackLink, hv]⟩
  | list items => rw [hv] at h; simp [isScalar] at h

/-- C4 counterexample: when the target's list already holds two entries
equivalent to the source reference (`[[A]]` and `[[a]]` both normalize
to `a`), two `addBackLink` invocations leave both — the list does not
end up with exactly one equivalent entry, contradicting the claim as
stated. -/
theorem addBackLink_exactly_one_fails :
    countBackLinkEntries
      (addBackLink
        (addBackLink
          (fun p => if p = "related" then FmValue.list [.str "[[A]]", .str "[[a]]"] else .null)
          "related" "[[a]]")
        "related" "[[a]]")
      "related" "[[a]]" ≠ 1 := by decide

/-- C4 (amended): if the back-link argument is a well-formed wiki-link
and the target's list property holds at most one entry equivalent to
it, two identical `addBackLink` invocations leave exactly one
equivalent entry, and the second invocation changes nothing. -/
theorem addBackLink_idempotent (fm : Fm) (prop bl : String) (xs : List FmValue)
    (hbl : (parseWikiLink bl).isSome = true)
    (hxs : fm prop = .list xs)
    (hcount : (xs.filter (backLinkMatches (backPathOf bl))).length ≤ 1) :
    countBackLinkEntries (addBackLink (addBackLink fm prop bl) prop bl) prop bl = 1 ∧
    addBackLink (addBackLink fm prop bl) prop bl = addBackLink fm prop bl := by
  obtain ⟨p, hp⟩ := Option.isSome_iff_exists.mp hbl
  have hself : backLinkMatches (backPathOf bl) (.str bl) = true := by
    simp [backLinkMatches, backPathOf, hp]
  by_cases hany : xs.any (backLinkMatches (backPathOf bl)) = true
  · have h1 : addBackLink fm prop bl = fm := by
      simp [addBackLink, hxs, hany]
    rw [h1, h1]
    have hpos : 0 < (xs.filter (backLinkMatches (backPathOf bl))).length := by
      obtain ⟨x, hx, hpx⟩ := List.any_eq_true.mp hany
      have hmem : x ∈ xs.filter (backLinkMatches (backPathOf bl)) :=
        List.mem_filter.mpr ⟨hx, hpx⟩
      exact List.length_pos.mpr (List.ne_nil_of_mem hmem)
    refine ⟨?_, rfl⟩
    simp only [countBackLinkEntries, hxs]
    omega
  · have hanyf : xs.any (backLinkMatches (backPathOf bl)) = false :=
      Bool.not_eq_true _ ▸ Bool.eq_false_iff.mpr (fun hc => hany hc)
    have h1 : addBackLink fm prop bl = updateFm fm prop (.list (xs ++ [.str bl])) := by
      simp [addBackLink, hxs, hanyf]
    have h2 : updateFm fm prop (.list (xs ++ [.str bl])) prop = .list (xs ++ [.str bl]) := by
      simp [updateFm]
    have hany2 : (xs ++ [FmValue.str bl]).any (backLinkMatches (backPathOf bl)) = true := by
      rw [List.any_append]
      simp [hself]
    have hxsfil : xs.filter (backLinkMatches (backPathOf bl)) = [] := by
      rw [List.filter_eq_nil_iff]
      intro x hx
      exact fun hc => hany (List.any_eq_true.mpr ⟨x, hx, hc⟩)
    have h3 : addBackLink (updateFm fm prop (.list (xs ++ [.str bl]))) prop bl
        = updateFm fm prop (.list (xs ++ [.str bl])) := by
      simp [addBackLink, h2, hany2]
    rw [h1, h3]
    refine ⟨?_, rfl⟩
    simp only [countBackLinkEntries, h2, List.filter_append, hxsfil]
    simp [hself]

/-- Witness for the amended C4: a concrete list holding one unrelated
entry gains exactly one equivalent entry over two invocations. -/
theorem addBackLink_idempotent_witness :
    countBackLinkEntries
      (addBackLink
        (addBackLink (fun p => if p = "related" then FmValue.list [.str "[[B]]"] else .null)
          "related" "[[a]]")
        "related" "[[a]]")
      "related" "[[a]]" = 1 ∧
    addBackLink
        (addBackLink (fun p => if p = "related" then FmValue.list [.str "[[B]]"] else .null)
          "related" "[[a]]")
        "related" "[[a]]"
      = addBackLink (fun p => if p = "related" then FmValue.list [.str "[[B]]"] else .null)
          "related" "[[a]]" :=
  addBackLink_idempotent
    (fun p => if p = "related" then FmValue.list [.str "[[B]]"] else .null)
    "related" "[[a]]" [.str "[[B]]"] (by decide) rfl (by decide)

/-- Bridge between `List.contains` and membership for strings. -/
theorem contains_eq_false_iff (l : List String) (a : String) :
    (l.contains a = false) ↔ a ∉ l := by
  rw [← Bool.not_eq_true]
  exact not_congr List.elem_iff

/-- C2: the diff of two reference lists has disjoint added and removed
parts under normalized identity, and removing `removed` from `old` and
adding `added` yields exactly `new`, as sets of normalized identities. -/
theorem diffLinks_set_algebra (oldLinks newLinks : List String) :
    ((diffLinks oldLinks newLinks).1.map normalizeLink).toFinset ∩
      ((diffLinks oldLinks newLinks).2.map normalizeLink).toFinset = ∅ ∧
    (((oldLinks.filter fun l => !((diffLinks oldLinks newLinks).2.contains l)).map
        normalizeLink).toFinset ∪
      ((diffLinks oldLinks newLinks).1.map normalizeLink).toFinset)
      = (newLinks.map normalizeLink).toFinset := by
  constructor
  · rw [Finset.eq_empty_iff_forall_not_mem]
    intro x hx
    rw [Finset.mem_inter] at hx
    obtain ⟨hadd, hrem⟩ := hx
    simp only [diffLinks, List.mem_toFinset, List.mem_map, List.mem_filter,
      Bool.not_eq_true'] at hadd hrem
    obtain ⟨a, ⟨ha, hna⟩, rfl⟩ := hadd
    obtain ⟨r, ⟨hr, hnr⟩, hxr⟩ := hrem
    exact (contains_eq_false_iff _ _).mp hnr (hxr ▸ List.mem_map_of_mem normalizeLink ha)
  · ext x
    simp only [Finset.mem_union, List.mem_toFinset, List.mem_map, List.mem_filter,
      diffLinks, Bool.not_eq_true']
    constructor
    · rintro (⟨l, ⟨hl, hnr⟩, rfl⟩ | ⟨a, ⟨ha, hna⟩, rfl⟩)
      · by_contra hno
        have hnp : (newLinks.map normalizeLink).contains (normalizeLink l) = false := by
          rw [contains_eq_false_iff]
          intro hmm
          obtain ⟨b, hb, hbn⟩ := List.mem_map.mp hmm
          exact hno ⟨b, hb, hbn⟩
        have hin : l ∈ oldLinks.filter
            (fun link => !((newLinks.map normalizeLink).contains (normalizeLink link))) :=
          List.mem_filter.mpr ⟨hl, by rw [Bool.not_eq_true', hnp]⟩
        rw [contains_eq_false_iff] at hnr
        exact hnr hin
      · exact ⟨a, ha, rfl⟩
    · rintro ⟨b, hb, rfl⟩
      by_cases hob : normalizeLink b ∈ oldLinks.map normalizeLink
      · left
        obtain ⟨o, ho, hon⟩ := List.mem_map.mp hob
        refine ⟨o, ⟨ho, ?_⟩, hon⟩
        rw [contains_eq_false_iff]
        intro hmem
        obtain ⟨-, hflag⟩ := List.mem_filter.mp hmem
        rw [Bool.not_eq_true'] at hflag
        exact (contains_eq_false_iff _ _).mp hflag (hon ▸ List.mem_map_of_mem normalizeLink hb)
      · right
        exact ⟨b, ⟨hb, (contains_eq_false_iff _ _).mpr hob⟩, rfl⟩

/-- Filtering boolean-true values out of the boolean values equals
filtering them out of all values. -/
theorem filter_true_of_filter_bool (values : List FmValue) :
    ((values.filter fun v => match v with | FmValue.bool _ => true | _ => false).filter
      fun v => match v with | FmValue.bool true => true | _ => false)
    = values.filter fun v => match v with | FmValue.bool true => true | _ => false := by
  induction values with
  | nil => rfl
  | cons v rest ih =>
      cases v with
      | bool b => cases b <;> simp [List.filter_cons, ih]
      | null => simp [List.filter_cons, ih]
      | str s => simp [List.filter_cons, ih]
      | num q => simp [List.filter_cons, ih]
      | list items => simp [List.filter_cons, ih]

/-- The code's zero-boolean percent format agrees with the uniform
`"(t/total) p%"` format at `t = 0`, `p = 0`. -/
theorem percent_zero_format (x : String) :
    "(0/" ++ x ++ ") 0%" = "(" ++ "0" ++ "/" ++ x ++ ") " ++ "0" ++ "%" := by
  rw [show ("(" ++ "0" ++ "/" : String) = "(0/" from rfl]
  rw [String.append_assoc ("(0/" ++ x) ") " "0",
      String.append_assoc ("(0/" ++ x) (") " ++ "0") "%"]
  rw [show ((") " ++ "0") ++ "%" : String) = ") 0%" from rfl]

/-- Rounding zero yields zero. -/
theorem jsRound_zero : jsRound 0 = 0 := by
  unfold jsRound
  rw [show ((0:ℚ) + 1/2) = 1/2 by norm_num, Int.floor_eq_iff]
  norm_num

/-- C5: whenever the total is positive or the value list is empty (the
only situations `computeRollups` produces), `percent_true` returns
`"(t/total) p%"` with `t` the boolean-true count over all values,
`total` the resolved-document total, and `p` the rounded percentage;
in particular `"(0/0) 0%"` when the total is 0. -/
theorem percent_true_formula (values : List FmValue) (total : ℕ)
    (h : values = [] ∨ 0 < total) :
    aggregate values .percent_true (some total) = .str (percentTrueSpec values total) := by
  simp only [aggregate, Option.getD_some]
  by_cases hb : (values.filter fun v => match v with | FmValue.bool _ => true | _ => false).length = 0
  · rw [if_pos hb]
    have hbnil : values.filter (fun v => match v with | FmValue.bool _ => true | _ => false) = [] :=
      List.length_eq_zero.mp hb
    have ht : (values.filter fun v => match v with | FmValue.bool true => true | _ => false) = [] := by
      rw [← filter_true_of_filter_bool, hbnil]
      rfl
    rcases Nat.eq_zero_or_pos total with h0 | hpos
    · subst h0
      rw [if_pos rfl, percentTrueSpec, if_pos rfl]
    · rw [if_neg (Nat.pos_iff_ne_zero.mp hpos), percentTrueSpec,
         if_neg (Nat.pos_iff_ne_zero.mp hpos), ht]
      simp only [List.length_nil, Nat.cast_zero, CharP.cast_eq_zero, zero_div, zero_mul,
        jsRound_zero]
      congr 1
      rw [show toString (0:ℕ) = "0" from rfl, show toString (0:ℤ) = "0" from rfl]
      exact percent_zero_format (toString total)
  · rw [if_neg hb]
    have hvne : values ≠ [] := by
      intro he; subst he; simp at hb
    have hpos : 0 < total := by
      rcases h with he | hp
      · exact absurd he hvne
      · exact hp
    rw [percentTrueSpec, if_neg (Nat.pos_iff_ne_zero.mp hpos), filter_true_of_filter_bool]

/-- Witness for C5: the spec scenario, boolean values `[true, false]`
with 3 resolved documents. -/
theorem percent_true_formula_witness :
    aggregate [.bool true, .bool false] .percent_true (some 3) = .str "(1/3) 33%" := by
  rw [percent_true_formula [.bool true, .bool false] 3 (Or.inr (by norm_num))]
  have hpct : jsRound ((100:ℚ)/3) = 33 := by
    unfold jsRound
    rw [show ((100:ℚ)/3 + 1/2) = 203/6 by norm_num, Int.floor_eq_iff]
    norm_num
  simp only [percentTrueSpec]
  norm_num
  rw [hpct]
  decide

/-- C6: the sum aggregation adds up exactly the coerced values: it
folds addition over `toNumbers`, numbers coerce to themselves, decimal
numeral strings coerce to their value, nulls are discarded, an empty
value set sums to 0, and the spec scenario `[2, "3", null, "x"]` sums
to 5. -/
theorem sum_coerces :
    (∀ (values : List FmValue) (totalLinks : Option ℕ),
        aggregate values .sum totalLinks = .num ((toNumbers values).foldl (· + ·) 0)) ∧
    (∀ totalLinks : Option ℕ, aggregate [] .sum totalLinks = .num 0) ∧
    (∀ q : ℚ, coerceNum (.num q) = some q) ∧
    (∀ (s : String) (q : ℚ), numericLit s = some q → coerceNum (.str s) = some q) ∧
    coerceNum .null = none ∧
    aggregate [.num 2, .str "3", .null, .str "x"] .sum (some 4) = .num 5 := by
  refine ⟨fun values totalLinks => rfl, fun totalLinks => rfl, fun q => rfl, ?_, rfl, ?_⟩
  · intro s q h
    have hstr : coerceNum (.str s) = jsParseFloat s := rfl
    rw [hstr]
    unfold numericLit at h
    unfold jsParseFloat
    cases hcs : s.toList with
    | nil =>
        rw [hcs] at h
        simp [splitSign, parseDecimal] at h
    | cons c cs0 =>
        rw [hcs] at h
        have hnw : isWsChar c = false := by
          by_contra hw
          rw [Bool.not_eq_false] at hw
          have hc : ((c = ' ' ∨ c = '\t') ∨ c = '\n') ∨ c = '\x0d' := by
            simpa [isWsChar] using hw
          rcases hc with ((rfl | rfl) | rfl) | rfl <;>
            simp [splitSign, parseDecimal, List.takeWhile, List.dropWhile] at h
        have hskip : skipWs (c :: cs0) = c :: cs0 := by
          rw [skipWs, hnw]
          rfl
        rw [hskip]
        cases hpd : parseDecimal (splitSign (c :: cs0)).2 with
        | none =>
            rw [hpd] at h
            simp at h
        | some pr =>
            obtain ⟨q0, rest⟩ := pr
            cases rest with
            | nil =>
                rw [hpd] at h
                simpa [applyExp] using h
            | cons r rs =>
                rw [hpd] at h
                simp at h
  · have h : toNumbers [.num 2, .str "3", .null, .str "x"] = [2, 3] := by decide
    simp [aggregate, h]
    norm_num

/-- Witness for C6: the decimal numeral "3" coerces to 3 through the
parse-float path. -/
theorem sum_coerces_witness :
    numericLit "3" = some 3 ∧ coerceNum (.str "3") = some 3 :=
  ⟨by decide, sum_coerces.2.2.2.1 "3" 3 (by decide)⟩

/-- C7: with exactly 2 sampled non-empty scalar string values of which
exactly 1 resolves (a 50% rate), the scalar-text heuristic does not
fire — the threshold demands strictly more than 50% — so absent a
pattern-1 match and a subfolder match the property is not a relation. -/
theorem scalar_text_threshold (vault : Vault) (propId : String) (rows : List Row)
    (baseFolder : Option String)
    (hstats : textRefStats vault baseFolder propId (rows.take 10) = (2, 1))
    (hp1 : (rows.take 10).any (pattern1Row vault baseFolder propId) = false)
    (hp3 : matchRelationSubfolder vault propId baseFolder = none) :
    detectRelationColumn vault propId rows baseFolder = false := by
  unfold detectRelationColumn
  by_cases hn : strStartsWith propId "note." = true
  · rw [hn]
    simp only [Bool.not_true, Bool.false_eq_true, if_false, hp1, hstats, hp3]
    rw [if_neg (by norm_num)]
    simp
  · rw [Bool.not_eq_true] at hn
    rw [hn]
    simp

/-- Witness for C7: a two-row sample over a one-file vault, one value
resolving and one not, is classified as not a relation. -/
theorem scalar_text_threshold_witness :
    textRefStats ⟨[⟨"projects/Alpha.md", "Alpha", []⟩], []⟩ none "note.project"
      (([fun p => if p = "note.project" then FmValue.str "Alpha" else FmValue.null,
         fun p => if p = "note.project" then FmValue.str "Zeta" else FmValue.null] :
        List Row).take 10) = (2, 1) ∧
    detectRelationColumn ⟨[⟨"projects/Alpha.md", "Alpha", []⟩], []⟩ "note.project"
      [fun p => if p = "note.project" then FmValue.str "Alpha" else FmValue.null,
       fun p => if p = "note.project" then FmValue.str "Zeta" else FmValue.null] none
      = false :=
  ⟨by decide,
   scalar_text_threshold ⟨[⟨"projects/Alpha.md", "Alpha", []⟩], []⟩ "note.project"
     [fun p => if p = "note.project" then FmValue.str "Alpha" else FmValue.null,
      fun p => if p = "note.project" then FmValue.str "Zeta" else FmValue.null] none
     (by decide) (by decide) (by decide)⟩

/-- The code's normalization of a well-formed reference equals the
spec-side normalized identity of its raw target. -/
theorem normalizeLink_of_target (s t : String) (al : Option String)
    (h : wikiLinkTarget s = some (t, al)) :
    normalizeLink s = specNormalizeId t := by
  have hp : parseWikiLink s = some ⟨stripMdExt t, al.getD (wikiBasename t)⟩ := by
    rw [parseWikiLink, h]
    rfl
  simp [normalizeLink, hp, specNormalizeId]

/-- C8: for well-formed references, the SyncEngine's normalization
(used by the diff) agrees with the spec-side equivalence — identities
compared case-insensitively with the extension stripped; the
duplicate check of `addBackLink` (and `removeBackLink`'s filter)
matches a string item exactly when it is a reference with the same
normalization as the back-link; and case-only or `.md`-only variants
are equivalent. -/
theorem reference_equivalence :
    (∀ (a b ta tb : String) (ala alb : Option String),
        wikiLinkTarget a = some (ta, ala) → wikiLinkTarget b = some (tb, alb) →
        (normalizeLink a = normalizeLink b ↔ specNormalizeId ta = specNormalizeId tb)) ∧
    (∀ (bl s : String) (p : WikiLink), parseWikiLink bl = some p →
        (backLinkMatches (backPathOf bl) (.str s) = true ↔
          (parseWikiLink s).isSome = true ∧ normalizeLink s = normalizeLink bl)) ∧
    normalizeLink "[[Note A]]" = normalizeLink "[[note a]]" ∧
    normalizeLink "[[Note A.md]]" = normalizeLink "[[Note A]]" := by
  refine ⟨?_, ?_, by decide, by decide⟩
  · intro a b ta tb ala alb ha hb
    rw [normalizeLink_of_target a ta ala ha, normalizeLink_of_target b tb alb hb]
  · intro bl s p hp
    have hbp : backPathOf bl = strToLower p.path := by simp [backPathOf, hp]
    have hnbl : normalizeLink bl = strToLower p.path := by simp [normalizeLink, hp]
    rw [hbp]
    cases hps : parseWikiLink s with
    | none => simp [backLinkMatches, hps]
    | some ps =>
        have hns : normalizeLink s = strToLower ps.path := by simp [normalizeLink, hps]
        simp [backLinkMatches, hps, hns, hnbl]

/-- Witness for C8: the equivalence of `[[X.md]]` and `[[x]]` reduces
to their spec-side normalized identities. -/
theorem reference_equivalence_witness :
    wikiLinkTarget "[[X.md]]" = some ("X.md", none) ∧
    wikiLinkTarget "[[x]]" = some ("x", none) ∧
    (normalizeLink "[[X.md]]" = normalizeLink "[[x]]" ↔
      specNormalizeId "X.md" = specNormalizeId "x") :=
  ⟨by decide, by decide,
   reference_equivalence.1 "[[X.md]]" "[[x]]" "X.md" "x" none none (by decide) (by decide)⟩

/-- Witness for C3: a concrete scalar-valued property survives both
operations unchanged. -/
theorem backLink_preserves_scalar_witness :
    isScalar ((fun p => if p = "status" then FmValue.str "done" else FmValue.null) "status") = true ∧
    addBackLink (fun p => if p = "status" then FmValue.str "done" else FmValue.null)
        "status" "[[a]]"
      = (fun p => if p = "status" then FmValue.str "done" else FmValue.null) ∧
    removeBackLink (fun p => if p = "status" then FmValue.str "done" else FmValue.null)
        "status" "[[a]]"
      = (fun p => if p = "status" then FmValue.str "done" else FmValue.null) :=
  ⟨by decide,
   (backLink_preserves_scalar _ "status" "[[a]]" (by decide)).1,
   (backLink_preserves_scalar _ "status" "[[a]]" (by decide)).2⟩

end Powerbase
